import Mathlib

/-!
Verification of the spectral-gate decision core: a shallow embedding of the
fixed-point arithmetic (hal_interface.h), spectral feature extraction
(spectral.cpp), quantized inference (inference.cpp) and decision fusion
(decision.cpp), together with theorems settling the specification claims.

Modelling conventions:
- C++ `int32_t` values are Lean `Int`s; every narrowing cast from a wider
  computation back to `int32_t` (or `fixed_t`) is made explicit through `i32`,
  which wraps into [-2^31, 2^31) (two's-complement behaviour of the targets).
- C++ truncating division `/` on signed operands is `Int.tdiv`; arithmetic
  right shift `>> k` is floor division, which is Lean's `/` (`Int.ediv`) by
  `2^k`; unsigned arithmetic is done in `Nat` with explicit `% 2^w`.
- Operations whose C++ execution is undefined (division by zero, out-of-bounds
  array access) return `none`: a function returns `some v` exactly when the
  C++ code has defined behaviour and produces `v`.
- `float` literals appear in the source only through `float_to_fixed`; each
  such constant is embedded as its exact resulting `fixed_t` integer value,
  computed from IEEE-754 single-precision semantics (noted per constant).
-/

namespace SpectralGate

/-- `FIXED_SHIFT` from hal_interface.h: Q15.16 fixed point. -/
def FIXED_SHIFT : Nat := 16

/-- `FIXED_ONE = 1 << FIXED_SHIFT` from hal_interface.h. -/
def FIXED_ONE : Int := 65536

/-- Narrowing of a wider signed computation to `int32_t`: two's-complement
wrap into [-2^31, 2^31). -/
def i32 (x : Int) : Int := (x + 2147483648) % 4294967296 - 2147483648

/-- `fixed_mul` from hal_interface.h: widen to 64 bits, multiply, arithmetic
shift right 16 (floor division by 65536), narrow back to `int32_t`. -/
def fixed_mul (a b : Int) : Int := i32 ((a * b) / 65536)

/-- `float_to_fixed(0.1f)`: 0.1f is 13421773/2^27 exactly; times 65536 gives
6553.6001…, truncated toward zero to 6553. -/
def fx_tenth : Int := 6553

/-- `float_to_fixed(0.2f)`: 0.2f is 13421773/2^26 exactly; times 65536 gives
13107.2002…, truncated to 13107. -/
def fx_fifth : Int := 13107

/-- `float_to_fixed(0.001f)`: 0.001f is 8589935/2^33 exactly; times 65536
gives 65.536…, truncated to 65. -/
def fx_epsilon : Int := 65

/-- `float_to_fixed(0.65f)`: 0.65f is 5452595/2^23 exactly; times 65536 gives
42598.3984375, truncated to 42598. -/
def fx_065 : Int := 42598

/-- `float_to_fixed(1.2f)`: 1.2f is 5033165/2^22 exactly; times 65536 gives
78643.203125, truncated to 78643. -/
def fx_12 : Int := 78643

/-- `float_to_fixed(1.5f)`: 1.5 is exact in binary; 1.5 * 65536 = 98304. -/
def fx_15 : Int := 98304

/-- `float_to_fixed(0.7f)`: 0.7f is 11744051/2^24 exactly; times 65536 gives
45875.19921875, truncated to 45875. -/
def fx_07 : Int := 45875

/-- `BATTERY_CRITICAL_MV` from hal_interface.h. -/
def BATTERY_CRITICAL_MV : Nat := 3000

/-- `BATTERY_LOW_MV` from hal_interface.h. -/
def BATTERY_LOW_MV : Nat := 3300

/-- `BATTERY_NOMINAL_MV` from hal_interface.h. -/
def BATTERY_NOMINAL_MV : Nat := 3700

/-- `Decision` enumeration from decision.h. -/
inductive Decision where
  | SLEEP
  | TX_ALERT
  | TX_UNCERTAIN
deriving DecidableEq

/-- `SpectralResult` from decision.h: three `fixed_t` fields plus the `uint8_t`
peak count (modelled as `Nat`; `find_peaks` below wraps it mod 256). -/
structure SpectralResult where
  dominant_frequency : Int
  peak_magnitude : Int
  spectral_centroid : Int
  num_peaks : Nat
deriving DecidableEq

/-- `InferenceResult` from decision.h. -/
structure InferenceResult where
  confidence : Int
  predicted_class : Nat
deriving DecidableEq

/-- `ThresholdConfig` from decision.h. -/
structure ThresholdConfig where
  base_confidence_threshold : Int
  low_battery_multiplier : Int
  critical_battery_multiplier : Int
  min_peaks_for_detection : Nat
deriving DecidableEq

/-- `get_default_config` from decision.cpp (each field is the exact
`float_to_fixed` value of the source literal). -/
def get_default_config : ThresholdConfig :=
  { base_confidence_threshold := fx_065
    low_battery_multiplier := fx_12
    critical_battery_multiplier := fx_15
    min_peaks_for_detection := 2 }

/-- Step 1 of `evaluate_structure` (decision.cpp lines 24-34): the
battery-scaled effective confidence threshold. -/
def effective_threshold (battery_mv : Nat) (config : ThresholdConfig) : Int :=
  if battery_mv < BATTERY_CRITICAL_MV then
    fixed_mul config.base_confidence_threshold config.critical_battery_multiplier
  else if battery_mv < BATTERY_LOW_MV then
    fixed_mul config.base_confidence_threshold config.low_battery_multiplier
  else
    config.base_confidence_threshold

/-- `evaluate_structure` from decision.cpp: battery-aware decision fusion.
Total pure function; `battery_mv` is a `uint16_t`, modelled as `Nat`. -/
def evaluate_structure (spectral : SpectralResult) (inference : InferenceResult)
    (battery_mv : Nat) (config : ThresholdConfig) : Decision :=
  let eff := effective_threshold battery_mv config
  if ¬ (spectral.num_peaks ≥ config.min_peaks_for_detection ∧
        spectral.peak_magnitude > fx_tenth) then
    Decision.SLEEP
  else if inference.predicted_class = 0 then
    Decision.SLEEP
  else if inference.predicted_class = 1 then
    if inference.confidence ≥ eff then
      Decision.TX_ALERT
    else if inference.confidence ≥ fixed_mul eff fx_07 then
      Decision.TX_UNCERTAIN
    else
      Decision.SLEEP
  else if inference.predicted_class = 2 then
    if battery_mv ≥ BATTERY_LOW_MV ∧
        spectral.num_peaks ≥ config.min_peaks_for_detection + 1 then
      Decision.TX_UNCERTAIN
    else
      Decision.SLEEP
  else
    Decision.SLEEP

/-- Sequencing of loop iterations that may each hit undefined behaviour: the
whole loop is defined iff every iteration is, collecting the results. -/
def seqOpt {α : Type} : List (Option α) → Option (List α)
  | [] => some []
  | none :: _ => none
  | some a :: rest =>
    match seqOpt rest with
    | none => none
    | some l => some (a :: l)

/-- Body of `fast_sin` (spectral.cpp, anonymous namespace) after the initial
`angle_256 &= 255` masking; `a` is already reduced below 256. The two mirror
steps fold the angle into the first quarter wave, `(x * FIXED_ONE) / 64`
scales it (exact division here), and the last step applies the half-circle
sign. -/
def fast_sin_core (a : Nat) : Int :=
  let x0 : Int := a
  let x1 := if x0 > 128 then 256 - x0 else x0
  let x2 := if x1 > 64 then 128 - x1 else x1
  let result := Int.tdiv (x2 * FIXED_ONE) 64
  if a > 128 then -result else result

/-- `fast_sin` from spectral.cpp: piecewise-linear sine on a 256-step circle;
`angle_256 &= 255` is reduction mod 256. -/
def fast_sin (angle_256 : Nat) : Int := fast_sin_core (angle_256 % 256)

/-- `fast_cos` from spectral.cpp: `fast_sin(angle_256 + 64)`. -/
def fast_cos (angle_256 : Nat) : Int := fast_sin (angle_256 + 64)

/-- The inner correlation loop of `compute_magnitude_spectrum` (spectral.cpp):
accumulation of `samples[n] * carrier(angle)` over the window, where the
`uint32_t` angle `freq_mult * n` is reduced mod 256 (reducing mod 2^32 first
would not change it since 256 divides 2^32). -/
def correlation_sum (samples : List Int) (num_samples : Nat)
    (carrier : Nat → Int) (freq_mult : Nat) : Int :=
  ((List.range num_samples).map
    (fun n => samples.getD n 0 * carrier ((freq_mult * n) % 256))).sum

/-- The value written to `magnitudes[k]` by `compute_magnitude_spectrum`
(spectral.cpp) when execution is defined: correlate the samples against the
synthesized sine/cosine carriers, divide the correlation sums by the sample
count (C++ truncating division), then the alpha-max-plus-beta-min
approximation `max + (min * 4) / 10`, shifted right 16 and narrowed to
`fixed_t`. -/
def bin_mag_value (num_bins num_samples : Nat) (samples : List Int) (k : Nat) : Int :=
  let freq_mult := (k * 256) / num_bins
  let real_sum := correlation_sum samples num_samples fast_cos freq_mult
  let imag_sum := correlation_sum samples num_samples fast_sin freq_mult
  let r := Int.tdiv real_sum num_samples
  let im := Int.tdiv imag_sum num_samples
  let abs_real := if r ≥ 0 then r else -r
  let abs_imag := if im ≥ 0 then im else -im
  let max_val := if abs_real > abs_imag then abs_real else abs_imag
  let min_val := if abs_real < abs_imag then abs_real else abs_imag
  i32 ((max_val + Int.tdiv (min_val * 4) 10) / 65536)

/-- One bin of `compute_magnitude_spectrum`: defined only when the samples are
readable (`num_samples ≤ samples.length`) and the division by `num_samples`
is not by zero. -/
def bin_magnitude (num_bins num_samples : Nat) (samples : List Int) (k : Nat) :
    Option Int :=
  if num_samples = 0 ∨ samples.length < num_samples then none
  else some (bin_mag_value num_bins num_samples samples k)

/-- `SpectralProcessor::compute_magnitude_spectrum` from spectral.cpp: one
magnitude per bin `k < num_bins`. When `num_bins = 0` the loop body never
runs, so the (vacuous) result is defined even for `num_samples = 0`. -/
def compute_magnitude_spectrum (num_bins : Nat) (samples : List Int)
    (num_samples : Nat) : Option (List Int) :=
  seqOpt ((List.range num_bins).map
    (fun k => bin_magnitude num_bins num_samples samples k))

/-- Loop of `find_peaks` (spectral.cpp): `fuel` is the number of remaining
iterations, `i` the current index, `acc` the `uint8_t` peak counter (wrapping
mod 256 on increment). Each iteration reads `magnitudes[i]` and, as the
short-circuit `&&` allows, `magnitudes[i-1]` and `magnitudes[i+1]`; a read
outside the array is undefined behaviour (`none`). -/
def find_peaks_go (mags : List Int) (threshold : Int) : Nat → Nat → Nat → Option Nat
  | _, acc, 0 => some acc
  | i, acc, fuel + 1 =>
    match mags[i]? with
    | none => none
    | some b =>
      if b > threshold then
        match mags[i - 1]? with
        | none => none
        | some a =>
          if b > a then
            match mags[i + 1]? with
            | none => none
            | some c =>
              if b > c then find_peaks_go mags threshold (i + 1) ((acc + 1) % 256) fuel
              else find_peaks_go mags threshold (i + 1) acc fuel
          else find_peaks_go mags threshold (i + 1) acc fuel
      else find_peaks_go mags threshold (i + 1) acc fuel

/-- 2^64, the modulus of `size_t` arithmetic on the target. -/
def SIZE_MOD : Nat := 18446744073709551616

/-- `SpectralProcessor::find_peaks` from spectral.cpp: scans `i` from 1 while
`i < count - 1`, where `count - 1` is `size_t` arithmetic (wrapping to
2^64 - 1 when `count = 0`); so the loop runs `(count - 1) - 1` iterations
starting at `i = 1`. The returned count is a `uint8_t`. -/
def find_peaks (mags : List Int) (count : Nat) (threshold : Int) : Option Nat :=
  let bound := (count + (SIZE_MOD - 1)) % SIZE_MOD
  find_peaks_go mags threshold 1 0 (bound - 1)

/-- `SpectralProcessor::compute_centroid` from spectral.cpp: Σ i·mag[i] over
Σ mag[i] as a fixed-point bin index, 0 when the total magnitude is 0. Reads
`magnitudes[0..count)`. -/
def compute_centroid (mags : List Int) (count : Nat) : Option Int :=
  if mags.length < count then none
  else
    let weighted_sum := ((List.range count).map
      (fun i => mags.getD i 0 * (i : Int))).sum
    let magnitude_sum := ((List.range count).map (fun i => mags.getD i 0)).sum
    if magnitude_sum = 0 then some 0
    else some (i32 (Int.tdiv (weighted_sum * FIXED_ONE) magnitude_sum))

/-- `SpectralProcessor` construction state (spectral.h): bin count and sample
rate are fixed at construction. -/
structure SpectralProcessor where
  num_bins : Nat
  sample_rate : Nat

/-- `MAX_BINS` from `SpectralProcessor::process`. -/
def MAX_BINS : Nat := 128

/-- The dominant-bin scan of `process` (spectral.cpp): state (max_mag, max_bin)
starting at (0, 0), scanning bins 1 .. actual_bins-1 (the DC bin is skipped). -/
def dominant_scan (mags : List Int) (actual_bins : Nat) : Int × Nat :=
  (List.range' 1 (actual_bins - 1)).foldl
    (fun st i => if mags.getD i 0 > st.1 then (mags.getD i 0, i) else st) (0, 0)

/-- `SpectralProcessor::process` from spectral.cpp. A null `samples` pointer is
`none`; null or `num_samples = 0` short-circuits to the all-zero result. On
the main path the source writes `num_bins_` magnitudes into a 128-entry stack
buffer (undefined behaviour beyond it), scans for the dominant bin, converts
it to a frequency dividing by `2 * actual_bins` (undefined when 0), then
counts peaks above 20% of the maximum and computes the centroid. -/
def process (p : SpectralProcessor) (samples : Option (List Int))
    (num_samples : Nat) : Option SpectralResult :=
  if num_samples = 0 ∨ samples = none then
    some ⟨0, 0, 0, 0⟩
  else
    match samples with
    | none => some ⟨0, 0, 0, 0⟩
    | some s =>
      if MAX_BINS < p.num_bins then none
      else
        let actual_bins := min p.num_bins MAX_BINS
        match compute_magnitude_spectrum p.num_bins s num_samples with
        | none => none
        | some mags =>
          let mp := dominant_scan mags actual_bins
          if actual_bins = 0 then none
          else
            let dominant := i32 (Int.tdiv
              ((mp.2 : Int) * (p.sample_rate : Int) * FIXED_ONE)
              (2 * (actual_bins : Int)))
            let peak_threshold := fixed_mul mp.1 fx_fifth
            match find_peaks mags actual_bins peak_threshold with
            | none => none
            | some npk =>
              match compute_centroid mags actual_bins with
              | none => none
              | some cen => some ⟨dominant, mp.1, cen, npk⟩

/-- The max-scan `max_val = 0; if (v > max_val) max_val = v;` used by
`extract_features`. -/
def list_max0 (l : List Int) : Int :=
  l.foldl (fun m y => if y > m then y else m) 0

/-- `SpectralProcessor::extract_features` from spectral.cpp: returns 0 and
writes nothing if the destination holds fewer than `num_bins_` entries;
otherwise recomputes the magnitude spectrum and, when the maximum bin value is
positive, divides every bin by it (`(int64)f * FIXED_ONE / max`, truncating,
narrowed to `fixed_t`). Result is (return value, features written). -/
def extract_features (p : SpectralProcessor) (samples : List Int)
    (num_samples max_features : Nat) : Option (Nat × List Int) :=
  if max_features < p.num_bins then some (0, [])
  else
    match compute_magnitude_spectrum p.num_bins samples num_samples with
    | none => none
    | some mags =>
      let max_val := list_max0 mags
      if max_val > 0 then
        some (p.num_bins, mags.map (fun f => i32 (Int.tdiv (f * FIXED_ONE) max_val)))
      else
        some (p.num_bins, mags)

/-- The peak condition of `find_peaks` at an in-bounds interior index `i`:
`magnitudes[i]` is above the threshold and strictly exceeds both
neighbours. -/
def is_peak_at (mags : List Int) (threshold : Int) (i : Nat) : Bool :=
  decide (mags.getD i 0 > threshold) &&
    decide (mags.getD i 0 > mags.getD (i - 1) 0) &&
    decide (mags.getD i 0 > mags.getD (i + 1) 0)

/-- Specification-side peak count: the number of bins `i` with
`1 ≤ i < count - 1` satisfying the peak condition (the reading of
`find_peaks` in the specification). -/
def peak_count_spec (mags : List Int) (count : Nat) (threshold : Int) : Nat :=
  ((List.range count).filter
    (fun i => decide (1 ≤ i) && decide (i < count - 1) &&
      is_peak_at mags threshold i)).length

/-- Peak count of the window of `fuel` consecutive indices starting at `i`
(recursion mirror of the `find_peaks` loop, without the `uint8_t` wrap). -/
def peak_count_from (mags : List Int) (threshold : Int) : Nat → Nat → Nat
  | _, 0 => 0
  | i, fuel + 1 =>
    (if is_peak_at mags threshold i then 1 else 0) +
      peak_count_from mags threshold (i + 1) fuel

/-- Alternating magnitudes 0,1,0,1,…: value 1 at every odd index. With
length 513 this has 256 interior peaks, overflowing the `uint8_t` counter
of `find_peaks`. -/
def alt_mags (n : Nat) : List Int :=
  (List.range n).map (fun i => if i % 2 = 1 then 1 else 0)

/-- `InferenceEngine` construction state (inference.cpp): referenced weight
and bias arrays (`int8_t` entries), sizes, and the calibrated fixed-point
scale factor. -/
structure InferenceEngine where
  weights : List Int
  biases : List Int
  input_size : Nat
  output_size : Nat
  scale_factor : Int

/-- `InferenceEngine::dot_product` from inference.cpp: 64-bit accumulation of
`input[i] * weights[output_idx*input_size + i]`, arithmetic shift right 7
narrowed to `fixed_t`, `fixed_mul` by the scale factor, then the bias widened
by `<< (FIXED_SHIFT - 7)` added (`int32_t` addition, two's-complement wrap).
Reads outside the weight, bias or input arrays are undefined behaviour. -/
def dot_product (e : InferenceEngine) (input : List Int) (output_idx : Nat) :
    Option Int :=
  if output_idx * e.input_size + e.input_size ≤ e.weights.length ∧
      e.input_size ≤ input.length then
    let accumulator := ((List.range e.input_size).map
      (fun i => input.getD i 0 *
        e.weights.getD (output_idx * e.input_size + i) 0)).sum
    let result0 := i32 (accumulator / 128)
    let result1 := fixed_mul result0 e.scale_factor
    match e.biases[output_idx]? with
    | none => none
    | some bias => some (i32 (result1 + bias * 512))
  else none

/-- The `max_val` scan of `normalize_outputs`: starts from `outputs[0]`,
strict improvements only. Only called on nonempty lists. -/
def list_max_cpp : List Int → Int
  | [] => 0
  | x :: r => r.foldl (fun m y => if y > m then y else m) x

/-- The `min_val` scan of `normalize_outputs`. -/
def list_min_cpp : List Int → Int
  | [] => 0
  | x :: r => r.foldl (fun m y => if y < m then y else m) x

/-- `InferenceEngine::normalize_outputs` from inference.cpp. Reads
`outputs[0]` first (undefined for an empty array). When the `int32_t` range
`max - min` is below `float_to_fixed(0.001f) = 65`, every output becomes the
uniform `FIXED_ONE / count`. Otherwise each output is shifted by `min` and
scaled by `(FIXED_ONE << 8) / (range >> 8)` — a division by zero (undefined)
when `range >> 8` is 0, i.e. for range in [65, 255] — clamped at zero, summed
into an `int32_t`, and finally renormalized by the sum when it is positive. -/
def normalize_outputs (outputs : List Int) : Option (List Int) :=
  match outputs with
  | [] => none
  | _ :: _ =>
    let max_val := list_max_cpp outputs
    let min_val := list_min_cpp outputs
    let range := i32 (max_val - min_val)
    if range < fx_epsilon then
      some (List.replicate outputs.length
        (Int.tdiv FIXED_ONE (outputs.length : Int)))
    else
      if range / 256 = 0 then none
      else
        let q := Int.tdiv (FIXED_ONE * 256) (range / 256)
        let scaled := outputs.map (fun x =>
          let y := fixed_mul (i32 (x - min_val)) q
          if y < 0 then 0 else y)
        let sum := scaled.foldl (fun s x => i32 (s + x)) 0
        if sum > 0 then
          some (scaled.map (fun x => i32 (Int.tdiv (x * FIXED_ONE) sum)))
        else some scaled

/-- Loop of `InferenceEngine::argmax`: strict improvements only, so the first
maximal index wins. -/
def argmax_go : List Int → Int → Nat → Nat → Nat
  | [], _, _, best => best
  | x :: rest, mx, i, best =>
    if x > mx then argmax_go rest x (i + 1) i
    else argmax_go rest mx (i + 1) best

/-- `InferenceEngine::argmax` from inference.cpp, starting from `outputs[0]`.
(The source reads `outputs[0]` unconditionally; within `run` this is only
reached with a nonempty output list, so the `[]` case is never taken.) -/
def argmax : List Int → Nat
  | [] => 0
  | x :: rest => argmax_go rest x 1 0

/-- `MAX_OUTPUTS` from `InferenceEngine::run`. -/
def MAX_OUTPUTS : Nat := 8

/-- The classification loop of `run`: one `dot_product` per output neuron
(`output_size` capped at `MAX_OUTPUTS`), then the ReLU-style clamp. -/
def raw_outputs (e : InferenceEngine) (features : List Int) : Option (List Int) :=
  match seqOpt ((List.range (min e.output_size MAX_OUTPUTS)).map
    (dot_product e features)) with
  | none => none
  | some outs => some (outs.map (fun x => if x < 0 then 0 else x))

/-- `InferenceEngine::run` from inference.cpp: zero-initialized result, early
return on feature-length mismatch, dot products with ReLU, normalization,
argmax, and the final clamp of the confidence into [0, FIXED_ONE]. -/
def run (e : InferenceEngine) (features : List Int) : Option InferenceResult :=
  if features.length ≠ e.input_size then some ⟨0, 0⟩
  else
    match raw_outputs e features with
    | none => none
    | some outs =>
      match normalize_outputs outs with
      | none => none
      | some normed =>
        let cls := argmax normed
        let conf0 := normed.getD cls 0
        let conf1 := if conf0 > FIXED_ONE then FIXED_ONE else conf0
        let conf2 := if conf1 < 0 then 0 else conf1
        some ⟨conf2, cls⟩

/-- Claim C2: if `num_peaks < min_peaks_for_detection` or
`peak_magnitude ≤ 0.1` (fixed-point, i.e. `float_to_fixed(0.1f) = 6553`),
then `evaluate_structure` returns SLEEP regardless of the inference result
and battery voltage. -/
theorem c2_activity_veto (spectral : SpectralResult) (inference : InferenceResult)
    (battery_mv : Nat) (config : ThresholdConfig)
    (h : spectral.num_peaks < config.min_peaks_for_detection ∨
         spectral.peak_magnitude ≤ fx_tenth) :
    evaluate_structure spectral inference battery_mv config = Decision.SLEEP := by
  have hns : ¬ (spectral.num_peaks ≥ config.min_peaks_for_detection ∧
      spectral.peak_magnitude > fx_tenth) := by
    rcases h with h | h
    · exact fun hc => absurd hc.1 (by omega)
    · exact fun hc => absurd hc.2 (by omega)
  simp only [evaluate_structure]
  rw [if_pos hns]

/-- Witness for C2 at a concrete input: zero peaks with the default
configuration (which requires two peaks) forces SLEEP. -/
theorem c2_activity_veto_witness :
    evaluate_structure ⟨0, 65536, 0, 0⟩ ⟨65536, 1⟩ 3700 get_default_config =
      Decision.SLEEP :=
  c2_activity_veto ⟨0, 65536, 0, 0⟩ ⟨65536, 1⟩ 3700 get_default_config
    (Or.inl (by decide))

/-- Claim C3: with the default configuration, spectral result
{num_peaks = 3, peak_magnitude = 0.5 = 32768} and inference result
{class = 1, confidence = 0.85 = 55705}, `evaluate_structure` returns
TX_ALERT at 3700 mV and TX_UNCERTAIN at 2900 mV. -/
theorem c3_battery_scaling_scenarios :
    evaluate_structure ⟨0, 32768, 0, 3⟩ ⟨55705, 1⟩ 3700 get_default_config =
      Decision.TX_ALERT ∧
    evaluate_structure ⟨0, 32768, 0, 3⟩ ⟨55705, 1⟩ 2900 get_default_config =
      Decision.TX_UNCERTAIN := by
  constructor <;> decide

/-- Claim C10: `evaluate_structure` returns TX_ALERT only when the predicted
class is 1, the confidence is at least the battery-scaled effective
threshold, and the activity veto passed; no other class ever produces
TX_ALERT. -/
theorem c10_tx_alert_only_class1 (spectral : SpectralResult)
    (inference : InferenceResult) (battery_mv : Nat) (config : ThresholdConfig)
    (h : evaluate_structure spectral inference battery_mv config =
      Decision.TX_ALERT) :
    inference.predicted_class = 1 ∧
    inference.confidence ≥ effective_threshold battery_mv config ∧
    spectral.num_peaks ≥ config.min_peaks_for_detection ∧
    spectral.peak_magnitude > fx_tenth := by
  simp only [evaluate_structure] at h
  split_ifs at h with h1 h2 h3 h4 h5 h6 h7
  exact ⟨h3, h4, h1.1, h1.2⟩

/-- Witness for C10: scenario-A inputs (class 1, confidence 0.85, nominal
battery) do produce TX_ALERT, and the theorem's conclusions hold there. -/
theorem c10_tx_alert_only_class1_witness :
    (InferenceResult.mk 55705 1).predicted_class = 1 ∧
    (InferenceResult.mk 55705 1).confidence ≥
      effective_threshold 3700 get_default_config ∧
    (SpectralResult.mk 0 32768 0 3).num_peaks ≥
      get_default_config.min_peaks_for_detection ∧
    (SpectralResult.mk 0 32768 0 3).peak_magnitude > fx_tenth :=
  c10_tx_alert_only_class1 ⟨0, 32768, 0, 3⟩ ⟨55705, 1⟩ 3700 get_default_config
    (by decide)

set_option maxRecDepth 4000 in
/-- Claim C5: for every `SpectralProcessor`, `process` with a null sample
pointer or with `num_samples = 0` returns the all-zero `SpectralResult`
(dominant_frequency, peak_magnitude, spectral_centroid and num_peaks all 0)
as a defined, non-failing outcome. -/
theorem c5_null_or_empty_input (p : SpectralProcessor)
    (samples : Option (List Int)) (num_samples : Nat)
    (h : num_samples = 0 ∨ samples = none) :
    process p samples num_samples = some ⟨0, 0, 0, 0⟩ := by
  unfold process
  rw [if_pos h]

/-- Witness for C5: a concrete processor with a null pointer and a nonzero
count still yields the all-zero result. -/
theorem c5_null_or_empty_input_witness :
    process ⟨64, 1000⟩ none 5 = some ⟨0, 0, 0, 0⟩ :=
  c5_null_or_empty_input ⟨64, 1000⟩ none 5 (Or.inr rfl)

/-- The `find_peaks` loop with all accesses in bounds counts the peaks of its
window, wrapped modulo 256 by the `uint8_t` accumulator. -/
theorem find_peaks_go_eq (mags : List Int) (t : Int) :
    ∀ (fuel i acc : Nat), 1 ≤ i → i + fuel < mags.length → acc < 256 →
      find_peaks_go mags t i acc fuel =
        some ((acc + peak_count_from mags t i fuel) % 256) := by
  intro fuel
  induction fuel with
  | zero =>
    intro i acc _ _ hacc
    simp [find_peaks_go, peak_count_from, Nat.mod_eq_of_lt hacc]
  | succ n ih =>
    intro i acc h1 h2 hacc
    have hi : i < mags.length := by omega
    have him : i - 1 < mags.length := by omega
    have hip : i + 1 < mags.length := by omega
    have ebm : is_peak_at mags t i =
        (decide (mags[i] > t) && decide (mags[i] > mags[i - 1]) &&
          decide (mags[i] > mags[i + 1])) := by
      simp [is_peak_at, List.getD_eq_getElem?_getD,
        List.getElem?_eq_getElem hi, List.getElem?_eq_getElem him,
        List.getElem?_eq_getElem hip]
    simp only [find_peaks_go, List.getElem?_eq_getElem hi,
      List.getElem?_eq_getElem him, List.getElem?_eq_getElem hip,
      peak_count_from, ebm]
    by_cases hb : mags[i] > t
    · by_cases ha : mags[i] > mags[i - 1]
      · by_cases hc : mags[i] > mags[i + 1]
        · rw [if_pos hb, if_pos ha, if_pos hc,
            ih (i + 1) ((acc + 1) % 256) (by omega) (by omega)
              (Nat.mod_lt _ (by omega))]
          simp [hb, ha, hc, Nat.mod_add_mod, Nat.add_assoc]
        · rw [if_pos hb, if_pos ha, if_neg hc,
            ih (i + 1) acc (by omega) (by omega) hacc]
          simp [hb, ha, hc]
      · rw [if_pos hb, if_neg ha, ih (i + 1) acc (by omega) (by omega) hacc]
        simp [hb, ha]
    · rw [if_neg hb, ih (i + 1) acc (by omega) (by omega) hacc]
      simp [hb]

/-- The window peak count is the filtered length over the index range. -/
theorem peak_count_from_eq (mags : List Int) (t : Int) :
    ∀ (fuel i : Nat),
      peak_count_from mags t i fuel =
        ((List.range' i fuel).filter (is_peak_at mags t)).length := by
  intro fuel
  induction fuel with
  | zero => intro i; simp [peak_count_from]
  | succ n ih =>
    intro i
    rw [List.range'_succ]
    by_cases hp : is_peak_at mags t i <;>
      simp [peak_count_from, List.filter_cons, hp, ih (i + 1)]
    omega

/-- Restricting a filtered count over `range count` to the interior indices
`1 ≤ i < count - 1` is a count over `range' 1 (count - 2)`. -/
theorem filter_interior (p : Nat → Bool) (count : Nat) (h : 2 ≤ count) :
    ((List.range count).filter
      (fun i => decide (1 ≤ i) && decide (i < count - 1) && p i)).length =
    ((List.range' 1 (count - 2)).filter p).length := by
  obtain ⟨m, rfl⟩ : ∃ m, count = m + 2 := ⟨count - 2, by omega⟩
  rw [List.range_eq_range']
  rw [show m + 2 = (m + 1) + 1 from rfl, List.range'_succ]
  rw [show (0 : Nat) + 1 = 1 from rfl, List.range'_concat]
  rw [List.filter_cons, List.filter_append]
  have h0 : (decide ((1 : Nat) ≤ 0) && decide (0 < m + 2 - 1) && p 0) = false := by
    simp
  rw [h0]
  have hlast : List.filter
      (fun i => decide (1 ≤ i) && decide (i < m + 2 - 1) && p i)
      [1 + 1 * m] = [] := by
    simp
    intro hcon
    exact absurd hcon (by omega)
  rw [hlast, List.append_nil]
  have hcongr : List.filter
      (fun i => decide (1 ≤ i) && decide (i < m + 2 - 1) && p i)
      (List.range' 1 m) = List.filter p (List.range' 1 m) := by
    apply List.filter_congr
    intro x hx
    rw [List.mem_range'] at hx
    obtain ⟨j, hj, rfl⟩ := hx
    have e1 : decide ((1 : Nat) ≤ 1 + 1 * j) = true := by simp
    have e2 : decide (1 + 1 * j < m + 2 - 1) = true := by
      rw [decide_eq_true_eq]; omega
    rw [e1, e2]
    simp
  rw [hcongr]
  simp

/-- On an array of its own length (1 ≤ length < 2^64), `find_peaks` returns
the interior peak count reduced modulo 256 (`uint8_t` return). -/
theorem find_peaks_eq_mod (mags : List Int) (t : Int)
    (h1 : 1 ≤ mags.length) (h2 : mags.length < SIZE_MOD) :
    find_peaks mags mags.length t =
      some (peak_count_spec mags mags.length t % 256) := by
  have hb : (mags.length + (SIZE_MOD - 1)) % SIZE_MOD = mags.length - 1 := by
    unfold SIZE_MOD at *
    omega
  show find_peaks_go mags t 1 0
    ((mags.length + (SIZE_MOD - 1)) % SIZE_MOD - 1) =
    some (peak_count_spec mags mags.length t % 256)
  rw [hb]
  by_cases hc : mags.length = 1
  · rw [hc]
    show find_peaks_go mags t 1 0 0 = some (peak_count_spec mags 1 t % 256)
    have : peak_count_spec mags 1 t = 0 := rfl
    rw [this]
    simp [find_peaks_go]
  · have hc2 : 2 ≤ mags.length := by omega
    have hfuel : mags.length - 1 - 1 = mags.length - 2 := by omega
    rw [hfuel,
      find_peaks_go_eq mags t (mags.length - 2) 1 0 (by omega) (by omega)
        (by omega),
      peak_count_from_eq]
    rw [peak_count_spec, filter_interior (is_peak_at mags t) mags.length hc2]
    simp

/-- Reading `alt_mags n`: 1 at odd indices below `n`, 0 elsewhere. -/
theorem alt_mags_getD (n j : Nat) :
    (alt_mags n).getD j 0 = if j < n ∧ j % 2 = 1 then 1 else 0 := by
  rw [alt_mags, List.getD_eq_getElem?_getD, List.getElem?_map]
  by_cases hj : j < n
  · rw [List.getElem?_range hj]
    by_cases hp : j % 2 = 1 <;> simp [hp, hj]
  · have hnone : (List.range n)[j]? = none := by
      rw [List.getElem?_eq_none]
      simp only [List.length_range]
      omega
    rw [hnone]
    simp [hj]

/-- On the alternating array of length 513, the interior peak test is exactly
the parity test. -/
theorem is_peak_alt (i : Nat) (h1 : 1 ≤ i) (h2 : i + 1 < 513) :
    is_peak_at (alt_mags 513) 0 i = decide (i % 2 = 1) := by
  rw [is_peak_at]
  simp only [alt_mags_getD]
  by_cases hp : i % 2 = 1
  · have e0 : (i < 513 ∧ i % 2 = 1) := ⟨by omega, hp⟩
    have e1 : ¬ (i - 1 < 513 ∧ (i - 1) % 2 = 1) := by omega
    have e2 : ¬ (i + 1 < 513 ∧ (i + 1) % 2 = 1) := by omega
    rw [if_pos e0, if_neg e1, if_neg e2]
    simp [hp]
  · have e0 : ¬ (i < 513 ∧ i % 2 = 1) := by omega
    rw [if_neg e0]
    simp [hp]

/-- The window [1, 2k+1] contains k+1 odd numbers. -/
theorem odd_filter_length :
    ∀ k, ((List.range' 1 (2 * k + 1)).filter
      (fun i => decide (i % 2 = 1))).length = k + 1 := by
  intro k
  induction k with
  | zero => rfl
  | succ m ih =>
    have hsplit : List.range' 1 (2 * (m + 1) + 1) =
        List.range' 1 (2 * m + 1) ++ List.range' (1 + 1 * (2 * m + 1)) 2 := by
      rw [List.range'_append]
      congr 1
      omega
    rw [hsplit, List.filter_append, List.length_append, ih]
    have hrest : List.range' (1 + 1 * (2 * m + 1)) 2 =
        [2 * m + 2, 2 * m + 3] := by
      rw [show 1 + 1 * (2 * m + 1) = 2 * m + 2 from by omega]
      rw [List.range'_succ, List.range'_succ]
      rfl
    rw [hrest]
    have hm1 : ¬ ((2 * m + 2) % 2 = 1) := by omega
    have hm2 : (2 * m + 3) % 2 = 1 := by omega
    simp [List.filter_cons, hm1, hm2]

/-- Claim C7 (amended): for every magnitude array of length `count ≥ 1`
(below the `size_t` modulus), `find_peaks` returns the number of bins `i`
with `1 ≤ i < count - 1` such that `magnitudes[i]` exceeds the threshold and
both neighbours — reduced modulo 256, because the peak counter and return
value are a `uint8_t`. Endpoints are never counted. -/
theorem c7_find_peaks_interior_peaks (mags : List Int) (t : Int)
    (h1 : 1 ≤ mags.length) (h2 : mags.length < SIZE_MOD) :
    find_peaks mags mags.length t =
      some (peak_count_spec mags mags.length t % 256) :=
  find_peaks_eq_mod mags t h1 h2

/-- Witness for C7 at a concrete array: [0, 5, 0] with threshold 1 has exactly
one interior peak. -/
theorem c7_find_peaks_interior_peaks_witness :
    find_peaks [0, 5, 0] 3 1 = some 1 := by
  have h := c7_find_peaks_interior_peaks [0, 5, 0] 1 (by decide) (by decide)
  exact h.trans (by decide)

/-- Counterexample to C7 as stated: the alternating array of length 513 has
256 interior peaks, but `find_peaks` returns 0 — the `uint8_t` counter wraps,
so the count is not exact. -/
theorem c7_uint8_wrap_counterexample :
    find_peaks (alt_mags 513) 513 0 = some 0 ∧
    peak_count_spec (alt_mags 513) 513 0 = 256 ∧
    find_peaks (alt_mags 513) 513 0 ≠
      some (peak_count_spec (alt_mags 513) 513 0) := by
  have hlen : (alt_mags 513).length = 513 := by
    simp [alt_mags]
  have hcount : peak_count_spec (alt_mags 513) 513 0 = 256 := by
    rw [peak_count_spec,
      filter_interior (is_peak_at (alt_mags 513) 0) 513 (by omega)]
    have hcongr : List.filter (is_peak_at (alt_mags 513) 0)
        (List.range' 1 (513 - 2)) =
        List.filter (fun i => decide (i % 2 = 1)) (List.range' 1 (513 - 2)) := by
      apply List.filter_congr
      intro x hx
      rw [List.mem_range'] at hx
      obtain ⟨j, hj, rfl⟩ := hx
      exact is_peak_alt (1 + 1 * j) (by omega) (by omega)
    rw [hcongr, show (513 : Nat) - 2 = 2 * 255 + 1 from by omega,
      odd_filter_length 255]
  have hfp : find_peaks (alt_mags 513) 513 0 = some 0 := by
    have h := find_peaks_eq_mod (alt_mags 513) 0
      (by rw [hlen]; omega) (by rw [hlen]; norm_num [SIZE_MOD])
    rw [hlen] at h
    rw [h, hcount]
  refine ⟨hfp, hcount, ?_⟩
  rw [hfp, hcount]
  simp

/-- Claim C4: for every feature vector whose length differs from the engine's
configured `input_size`, `run` returns predicted_class 0 with confidence 0,
as a defined (non-error) result. -/
theorem c4_length_mismatch_result (e : InferenceEngine) (features : List Int)
    (h : features.length ≠ e.input_size) :
    run e features = some ⟨0, 0⟩ := by
  unfold run
  rw [if_pos h]

/-- Witness for C4: two features fed to an engine expecting four. -/
theorem c4_length_mismatch_result_witness :
    run ⟨[], [], 4, 3, 65536⟩ [1, 2] = some ⟨0, 0⟩ :=
  c4_length_mismatch_result ⟨[], [], 4, 3, 65536⟩ [1, 2] (by decide)

/-- Claim C9: every `InferenceResult` that `run` returns — for any engine
configuration and feature vector on which it has defined behaviour — has its
confidence in [0, FIXED_ONE]. -/
theorem c9_confidence_in_range (e : InferenceEngine) (features : List Int)
    (r : InferenceResult) (h : run e features = some r) :
    0 ≤ r.confidence ∧ r.confidence ≤ FIXED_ONE := by
  unfold run at h
  by_cases hlen : features.length ≠ e.input_size
  · rw [if_pos hlen] at h
    simp only [Option.some.injEq] at h
    subst h
    exact ⟨le_refl 0, by norm_num [FIXED_ONE]⟩
  · rw [if_neg hlen] at h
    split at h
    · cases h
    · split at h
      · cases h
      · simp only [Option.some.injEq] at h
        subst h
        simp only [FIXED_ONE]
        constructor
        · split_ifs <;> omega
        · split_ifs <;> omega

/-- Witness for C9 on the length-mismatch path: the returned result ⟨0, 0⟩
satisfies the confidence bounds. -/
theorem c9_confidence_in_range_witness :
    0 ≤ (InferenceResult.mk 0 0).confidence ∧
      (InferenceResult.mk 0 0).confidence ≤ FIXED_ONE :=
  c9_confidence_in_range ⟨[], [], 1, 1, 0⟩ [1, 2] ⟨0, 0⟩ (by decide)

/-- Claim C1 (refuted by the code): the spec asserts every core function is
total, but three core paths hit undefined behaviour. (1) `extract_features`
with `num_samples = 0` and one bin divides the correlation sums by zero;
(2) `find_peaks` with `count = 0` wraps its loop bound `count - 1` to
2^64 - 1 and immediately reads `magnitudes[1]` out of bounds of the empty
array; (3) `run`'s `normalize_outputs` divides by `range >> 8 = 0` whenever
the post-ReLU output range lies in [65, 255] — reached here by an engine with
weights [0, 1], biases [0, 0], input_size 1, output_size 2, unit scale
factor, on the feature vector [12800], whose raw outputs are [0, 100]. -/
theorem c1_totality_failures :
    extract_features ⟨1, 1000⟩ [] 0 1 = none ∧
    find_peaks [] 0 0 = none ∧
    run ⟨[0, 1], [0, 0], 1, 2, 65536⟩ [12800] = none := by
  refine ⟨rfl, ?_, by decide⟩
  show find_peaks_go [] 0 1 0 ((0 + (SIZE_MOD - 1)) % SIZE_MOD - 1) = none
  rw [show (0 + (SIZE_MOD - 1)) % SIZE_MOD - 1 =
    18446744073709551613 + 1 from by norm_num [SIZE_MOD]]
  rfl

/-- `i32` always lands in the `int32_t` range. -/
theorem i32_bounds (x : Int) : -2147483648 ≤ i32 x ∧ i32 x < 2147483648 := by
  unfold i32
  have h1 : 0 ≤ (x + 2147483648) % 4294967296 :=
    Int.emod_nonneg _ (by norm_num)
  have h2 : (x + 2147483648) % 4294967296 < 4294967296 :=
    Int.emod_lt_of_pos _ (by norm_num)
  omega

/-- `i32` is the identity on values already in the `int32_t` range. -/
theorem i32_eq_self (x : Int) (h1 : -2147483648 ≤ x) (h2 : x < 2147483648) :
    i32 x = x := by
  unfold i32
  rw [Int.emod_eq_of_lt (by omega) (by omega)]
  omega

/-- A sequenced loop has as many results as iterations. -/
theorem seqOpt_length {α : Type} :
    ∀ (l : List (Option α)) (l' : List α),
      seqOpt l = some l' → l'.length = l.length := by
  intro l
  induction l with
  | nil =>
    intro l' h
    simp only [seqOpt, Option.some.injEq] at h
    subst h
    rfl
  | cons x rest ih =>
    intro l' h
    match x with
    | none => simp [seqOpt] at h
    | some a =>
      simp only [seqOpt] at h
      cases hr : seqOpt rest with
      | none => rw [hr] at h; cases h
      | some lr =>
        rw [hr] at h
        simp only [Option.some.injEq] at h
        subst h
        simp [ih lr hr]

/-- Every collected result of a sequenced loop came from one iteration. -/
theorem seqOpt_mem {α : Type} :
    ∀ (l : List (Option α)) (l' : List α),
      seqOpt l = some l' → ∀ y ∈ l', some y ∈ l := by
  intro l
  induction l with
  | nil =>
    intro l' h
    simp only [seqOpt, Option.some.injEq] at h
    subst h
    intro y hy
    cases hy
  | cons x rest ih =>
    intro l' h
    match x with
    | none => simp [seqOpt] at h
    | some a =>
      simp only [seqOpt] at h
      cases hr : seqOpt rest with
      | none => rw [hr] at h; cases h
      | some lr =>
        rw [hr] at h
        simp only [Option.some.injEq] at h
        subst h
        intro y hy
        rcases List.mem_cons.mp hy with h1 | h1
        · rw [h1]; exact List.mem_cons_self _ _
        · exact List.mem_cons_of_mem _ (ih lr hr y h1)

/-- A defined `dot_product` value is an `i32`-narrowed quantity. -/
theorem dot_product_i32 (e : InferenceEngine) (input : List Int) (idx : Nat)
    (v : Int) (h : dot_product e input idx = some v) : ∃ z, v = i32 z := by
  unfold dot_product at h
  split_ifs at h
  split at h
  · cases h
  · simp only [Option.some.injEq] at h
    exact ⟨_, h.symm⟩

/-- Every raw (post-ReLU) output of `run` lies in [0, 2^31). -/
theorem raw_outputs_mem_bounds (e : InferenceEngine) (features : List Int)
    (outs : List Int) (h : raw_outputs e features = some outs) :
    ∀ x ∈ outs, 0 ≤ x ∧ x < 2147483648 := by
  unfold raw_outputs at h
  split at h
  · cases h
  · simp only [Option.some.injEq] at h
    subst h
    rename_i l heq
    intro x hx
    rw [List.mem_map] at hx
    obtain ⟨y, hy, rfl⟩ := hx
    have hy' := seqOpt_mem _ _ heq y hy
    rw [List.mem_map] at hy'
    obtain ⟨idx, _, hdp⟩ := hy'
    obtain ⟨z, rfl⟩ := dot_product_i32 e features idx y hdp
    have hb := i32_bounds z
    refine ⟨?_, ?_⟩ <;> split_ifs <;> omega

/-- The C++ max fold yields one of the scanned values. -/
theorem foldl_max_mem : ∀ (r : List Int) (x : Int),
    r.foldl (fun m y => if y > m then y else m) x ∈ x :: r := by
  intro r
  induction r with
  | nil => intro x; simp
  | cons y r' ih =>
    intro x
    simp only [List.foldl_cons]
    have h := ih (if y > x then y else x)
    rcases List.mem_cons.mp h with h1 | h1
    · rw [h1]
      by_cases hc : y > x <;> simp [hc]
    · exact List.mem_cons_of_mem _ (List.mem_cons_of_mem _ h1)

/-- The C++ min fold yields one of the scanned values. -/
theorem foldl_min_mem : ∀ (r : List Int) (x : Int),
    r.foldl (fun m y => if y < m then y else m) x ∈ x :: r := by
  intro r
  induction r with
  | nil => intro x; simp
  | cons y r' ih =>
    intro x
    simp only [List.foldl_cons]
    have h := ih (if y < x then y else x)
    rcases List.mem_cons.mp h with h1 | h1
    · rw [h1]
      by_cases hc : y < x <;> simp [hc]
    · exact List.mem_cons_of_mem _ (List.mem_cons_of_mem _ h1)

/-- `max_val` of a nonempty output array is one of its entries. -/
theorem list_max_cpp_mem (l : List Int) (h : l ≠ []) : list_max_cpp l ∈ l := by
  match l with
  | [] => exact absurd rfl h
  | x :: r => exact foldl_max_mem r x

/-- `min_val` of a nonempty output array is one of its entries. -/
theorem list_min_cpp_mem (l : List Int) (h : l ≠ []) : list_min_cpp l ∈ l := by
  match l with
  | [] => exact absurd rfl h
  | x :: r => exact foldl_min_mem r x

/-- `argmax`'s scan keeps its current best when nothing strictly improves. -/
theorem argmax_go_no_improve : ∀ (l : List Int) (m : Int) (i best : Nat),
    (∀ x ∈ l, ¬(x > m)) → argmax_go l m i best = best := by
  intro l
  induction l with
  | nil => intros; rfl
  | cons x r ih =>
    intro m i best h
    simp only [argmax_go]
    rw [if_neg (h x (List.mem_cons_self _ _))]
    exact ih m (i + 1) best (fun y hy => h y (List.mem_cons_of_mem _ hy))

/-- `argmax` of a constant array is index 0. -/
theorem argmax_replicate (n : Nat) (u : Int) :
    argmax (List.replicate (n + 1) u) = 0 := by
  rw [List.replicate_succ]
  simp only [argmax]
  apply argmax_go_no_improve
  intro x hx
  rw [List.mem_replicate] at hx
  rw [hx.2]
  exact lt_irrefl u

/-- Claim C8: when the maximum minus minimum of the raw (post-ReLU) outputs is
below the epsilon `float_to_fixed(0.001f) = 65`, `normalize_outputs` emits the
uniform distribution, so `run` returns class 0 with confidence
`FIXED_ONE / output_size` (for `1 ≤ output_size ≤ MAX_OUTPUTS`) instead of an
arbitrary argmax winner. -/
theorem c8_uniform_on_near_equal (e : InferenceEngine) (features outs : List Int)
    (h1 : 1 ≤ e.output_size) (h8 : e.output_size ≤ MAX_OUTPUTS)
    (hlen : features.length = e.input_size)
    (hraw : raw_outputs e features = some outs)
    (hrange : list_max_cpp outs - list_min_cpp outs < fx_epsilon) :
    run e features = some ⟨Int.tdiv FIXED_ONE (e.output_size : Int), 0⟩ := by
  have hlout : outs.length = e.output_size := by
    unfold raw_outputs at hraw
    split at hraw
    · cases hraw
    · simp only [Option.some.injEq] at hraw
      subst hraw
      rename_i l heq
      rw [List.length_map, seqOpt_length _ _ heq, List.length_map,
        List.length_range, min_eq_left h8]
  have hne : outs ≠ [] := by
    intro hc
    rw [hc] at hlout
    simp at hlout
    omega
  have hbounds := raw_outputs_mem_bounds e features outs hraw
  have hnorm : normalize_outputs outs =
      some (List.replicate outs.length
        (Int.tdiv FIXED_ONE (outs.length : Int))) := by
    obtain ⟨o, rest, rfl⟩ := List.exists_cons_of_ne_nil hne
    simp only [normalize_outputs]
    have hbm := hbounds _ (list_max_cpp_mem (o :: rest) (by simp))
    have hbn := hbounds _ (list_min_cpp_mem (o :: rest) (by simp))
    rw [i32_eq_self _ (by omega) (by omega)]
    rw [if_pos hrange]
  obtain ⟨m, hm⟩ : ∃ m, outs.length = m + 1 := by
    cases houts : outs with
    | nil => exact absurd houts hne
    | cons o rest => exact ⟨rest.length, by simp⟩
  have hu0 : 0 ≤ Int.tdiv FIXED_ONE (((m + 1 : Nat)) : Int) :=
    Int.tdiv_nonneg (by norm_num [FIXED_ONE]) (by omega)
  have hu1 : Int.tdiv FIXED_ONE (((m + 1 : Nat)) : Int) ≤ FIXED_ONE := by
    rw [Int.tdiv_eq_ediv (by norm_num [FIXED_ONE]) (by omega)]
    exact Int.ediv_le_self _ (by norm_num [FIXED_ONE])
  unfold run
  rw [if_neg (not_ne_iff.mpr hlen)]
  simp only [hraw, hnorm]
  rw [hm, argmax_replicate]
  rw [List.replicate_succ]
  simp only [List.getD_cons_zero]
  rw [if_neg (by omega), if_neg (by omega)]
  rw [show (m + 1 : Nat) = outs.length from hm.symm, hlout]

/-- Witness for C8: an engine with zero weights and biases on a one-feature
input yields equal raw outputs [0, 0], and `run` returns the uniform
confidence 32768 = FIXED_ONE / 2 with class 0. -/
theorem c8_uniform_on_near_equal_witness :
    run ⟨[0, 0], [0, 0], 1, 2, 65536⟩ [100] = some ⟨32768, 0⟩ :=
  c8_uniform_on_near_equal ⟨[0, 0], [0, 0], 1, 2, 65536⟩ [100] [0, 0]
    (by decide) (by decide) (by decide) (by decide) (by decide)

set_option maxRecDepth 8000 in
/-- The triangle-wave sine approximation stays within ±FIXED_ONE (checked over
its whole 256-step domain). -/
theorem fast_sin_core_bounds :
    ∀ a : Fin 256, -65536 ≤ fast_sin_core a.val ∧ fast_sin_core a.val ≤ 65536 := by
  decide

/-- `fast_sin` bounds for every angle. -/
theorem fast_sin_bounds (angle : Nat) :
    -65536 ≤ fast_sin angle ∧ fast_sin angle ≤ 65536 := by
  rw [fast_sin]
  exact fast_sin_core_bounds ⟨angle % 256, Nat.mod_lt _ (by norm_num)⟩

/-- `fast_cos` bounds for every angle. -/
theorem fast_cos_bounds (angle : Nat) :
    -65536 ≤ fast_cos angle ∧ fast_cos angle ≤ 65536 := by
  rw [fast_cos]
  exact fast_sin_bounds (angle + 64)

/-- Reading an `int16_t` sample buffer (default 0 past the end) stays in the
`int16_t` range. -/
theorem getD_int16_bound (samples : List Int)
    (hs : ∀ x ∈ samples, -32768 ≤ x ∧ x ≤ 32767) (n : Nat) :
    -32768 ≤ samples.getD n 0 ∧ samples.getD n 0 ≤ 32767 := by
  by_cases h : n < samples.length
  · rw [List.getD_eq_getElem _ _ h]
    exact hs _ (List.getElem_mem h)
  · rw [List.getD_eq_default _ _ (by omega)]
    norm_num

/-- A list of elementwise-bounded integers has a linearly bounded sum. -/
theorem sum_int_bound : ∀ (l : List Int) (B : Int),
    (∀ x ∈ l, -B ≤ x ∧ x ≤ B) →
    -((l.length : Int) * B) ≤ l.sum ∧ l.sum ≤ (l.length : Int) * B := by
  intro l
  induction l with
  | nil => intro B _; simp
  | cons x r ih =>
    intro B h
    have hx := h x (List.mem_cons_self _ _)
    have hr := ih B (fun y hy => h y (List.mem_cons_of_mem _ hy))
    simp only [List.sum_cons, List.length_cons]
    have hc : ((r.length + 1 : Nat) : Int) = (r.length : Int) + 1 := by
      push_cast
      ring
    rw [hc]
    constructor <;> nlinarith [hx.1, hx.2, hr.1, hr.2]

/-- The correlation sum of an `int16_t` window against a ±FIXED_ONE-bounded
carrier is bounded by `num_samples * 2^31`. -/
theorem correlation_sum_bounds (samples : List Int) (ns : Nat)
    (carrier : Nat → Int) (fm : Nat)
    (hs : ∀ x ∈ samples, -32768 ≤ x ∧ x ≤ 32767)
    (hc : ∀ a, -65536 ≤ carrier a ∧ carrier a ≤ 65536) :
    -((ns : Int) * 2147483648) ≤ correlation_sum samples ns carrier fm ∧
      correlation_sum samples ns carrier fm ≤ (ns : Int) * 2147483648 := by
  unfold correlation_sum
  have h := sum_int_bound ((List.range ns).map
      (fun n => samples.getD n 0 * carrier ((fm * n) % 256))) 2147483648 ?_
  · simpa [List.length_map, List.length_range] using h
  · intro x hx
    rw [List.mem_map] at hx
    obtain ⟨n, _, rfl⟩ := hx
    have h1 := getD_int16_bound samples hs n
    have h2 := hc ((fm * n) % 256)
    have hs' : |samples.getD n 0| ≤ 32768 := abs_le.mpr ⟨by omega, by omega⟩
    have hc' : |carrier ((fm * n) % 256)| ≤ 65536 := abs_le.mpr ⟨h2.1, h2.2⟩
    have habs : |samples.getD n 0 * carrier ((fm * n) % 256)| ≤ 2147483648 := by
      rw [abs_mul]
      calc |samples.getD n 0| * |carrier ((fm * n) % 256)| ≤ 32768 * 65536 :=
            mul_le_mul hs' hc' (abs_nonneg _) (by norm_num)
        _ = 2147483648 := by norm_num
    exact abs_le.mp habs

/-- Truncating division of a nonnegative bounded value: `a ≤ n·B` gives
`a tdiv n ≤ B`. -/
theorem tdiv_bounds_nonneg (a n B : Int) (ha : 0 ≤ a) (hn : 0 < n)
    (h2 : a ≤ n * B) : 0 ≤ Int.tdiv a n ∧ Int.tdiv a n ≤ B := by
  rw [Int.tdiv_eq_ediv ha (by omega)]
  constructor
  · exact Int.ediv_nonneg ha (by omega)
  · calc a / n ≤ (n * B) / n := Int.ediv_le_ediv hn h2
      _ = B := Int.mul_ediv_cancel_left _ (by omega)

/-- Truncating division keeps symmetric bounds: `|a| ≤ n·B` gives
`|a tdiv n| ≤ B`. -/
theorem tdiv_bounds (a n B : Int) (hn : 0 < n) (hB : 0 ≤ B)
    (h1 : -(n * B) ≤ a) (h2 : a ≤ n * B) :
    -B ≤ Int.tdiv a n ∧ Int.tdiv a n ≤ B := by
  rcases le_or_lt 0 a with ha | ha
  · have h := tdiv_bounds_nonneg a n B ha hn h2
    exact ⟨by omega, h.2⟩
  · have hna : 0 ≤ -a := by omega
    have h2' : -a ≤ n * B := by omega
    have hres := tdiv_bounds_nonneg (-a) n B hna hn h2'
    rw [Int.neg_tdiv] at hres
    exact ⟨by omega, by omega⟩

/-- Every defined spectrum magnitude computed from an `int16_t` window is
nonnegative and at most 45875 (the alpha-max-plus-beta-min value of two
2^31-bounded correlations after the 16-bit shift), so the `fixed_t` narrowing
in `bin_mag_value` never wraps. -/
theorem bin_mag_value_bounds (num_bins num_samples : Nat) (samples : List Int)
    (k : Nat) (hns : 0 < num_samples)
    (hs : ∀ x ∈ samples, -32768 ≤ x ∧ x ≤ 32767) :
    0 ≤ bin_mag_value num_bins num_samples samples k ∧
      bin_mag_value num_bins num_samples samples k ≤ 45875 := by
  simp only [bin_mag_value]
  set fm := (k * 256) / num_bins with hfm
  set r := Int.tdiv (correlation_sum samples num_samples fast_cos fm)
    (num_samples : Int) with hrdef
  set im := Int.tdiv (correlation_sum samples num_samples fast_sin fm)
    (num_samples : Int) with himdef
  have hrb := correlation_sum_bounds samples num_samples fast_cos fm hs fast_cos_bounds
  have hib := correlation_sum_bounds samples num_samples fast_sin fm hs fast_sin_bounds
  have hr_b : -2147483648 ≤ r ∧ r ≤ 2147483648 := by
    rw [hrdef]
    exact tdiv_bounds _ _ _ (by omega) (by norm_num) hrb.1 hrb.2
  have him_b : -2147483648 ≤ im ∧ im ≤ 2147483648 := by
    rw [himdef]
    exact tdiv_bounds _ _ _ (by omega) (by norm_num) hib.1 hib.2
  set ar := if r ≥ 0 then r else -r with hardef
  set ai := if im ≥ 0 then im else -im with haidef
  have har_b : 0 ≤ ar ∧ ar ≤ 2147483648 := by
    rw [hardef]
    split_ifs <;> omega
  have hai_b : 0 ≤ ai ∧ ai ≤ 2147483648 := by
    rw [haidef]
    split_ifs <;> omega
  set mx := if ar > ai then ar else ai with hmxdef
  set mn := if ar < ai then ar else ai with hmndef
  have hmx_b : 0 ≤ mx ∧ mx ≤ 2147483648 := by
    rw [hmxdef]
    split_ifs <;> omega
  have hmn_b : 0 ≤ mn ∧ mn ≤ 2147483648 := by
    rw [hmndef]
    split_ifs <;> omega
  have hq : 0 ≤ Int.tdiv (mn * 4) 10 ∧ Int.tdiv (mn * 4) 10 ≤ 858993460 := by
    exact tdiv_bounds_nonneg (mn * 4) 10 858993460 (by omega) (by omega) (by omega)
  have hinner : 0 ≤ mx + Int.tdiv (mn * 4) 10 ∧
      mx + Int.tdiv (mn * 4) 10 ≤ 3006477108 := by omega
  have hdivd : 0 ≤ (mx + Int.tdiv (mn * 4) 10) / 65536 ∧
      (mx + Int.tdiv (mn * 4) 10) / 65536 ≤ 45875 := by
    constructor
    · exact Int.ediv_nonneg hinner.1 (by norm_num)
    · calc (mx + Int.tdiv (mn * 4) 10) / 65536 ≤ 3006477108 / 65536 :=
          Int.ediv_le_ediv (by norm_num) hinner.2
        _ = 45875 := by norm_num
  rw [i32_eq_self _ (by omega) (by omega)]
  exact hdivd

/-- A loop whose every iteration is defined collects exactly its values. -/
theorem seqOpt_map_some {α β : Type} (f : α → β) :
    ∀ l : List α, seqOpt (l.map (fun a => some (f a))) = some (l.map f) := by
  intro l
  induction l with
  | nil => rfl
  | cons x r ih => simp [seqOpt, ih]

/-- With a readable nonempty sample window, `compute_magnitude_spectrum` is
defined and returns exactly the per-bin magnitudes. -/
theorem compute_magnitude_spectrum_eq (num_bins num_samples : Nat)
    (samples : List Int) (h0 : 0 < num_samples)
    (hlen : num_samples ≤ samples.length) :
    compute_magnitude_spectrum num_bins samples num_samples =
      some ((List.range num_bins).map
        (fun k => bin_mag_value num_bins num_samples samples k)) := by
  unfold compute_magnitude_spectrum
  have hg : ¬ (num_samples = 0 ∨ samples.length < num_samples) := by omega
  simp only [bin_magnitude, if_neg hg]
  exact seqOpt_map_some _ _

/-- The `max_val = 0`-seeded fold dominates its start and every element. -/
theorem foldl_max_le : ∀ (l : List Int) (x : Int),
    x ≤ l.foldl (fun m y => if y > m then y else m) x ∧
    ∀ z ∈ l, z ≤ l.foldl (fun m y => if y > m then y else m) x := by
  intro l
  induction l with
  | nil =>
    intro x
    exact ⟨le_refl x, by intro z hz; cases hz⟩
  | cons y r ih =>
    intro x
    simp only [List.foldl_cons]
    have h := ih (if y > x then y else x)
    have hx : x ≤ if y > x then y else x := by split_ifs <;> omega
    have hy : y ≤ if y > x then y else x := by split_ifs <;> omega
    refine ⟨le_trans hx h.1, ?_⟩
    intro z hz
    rcases List.mem_cons.mp hz with h1 | h1
    · rw [h1]
      exact le_trans hy h.1
    · exact h.2 z h1

/-- `max_val` dominates every feature. -/
theorem list_max0_le (l : List Int) : ∀ z ∈ l, z ≤ list_max0 l := by
  intro z hz
  exact (foldl_max_le l 0).2 z hz

/-- `max_val` of an all-zero spectrum is 0. -/
theorem list_max0_all_zero : ∀ l : List Int, (∀ m ∈ l, m = 0) →
    list_max0 l = 0 := by
  intro l
  induction l with
  | nil => intro _; rfl
  | cons x r ih =>
    intro h
    have hx := h x (List.mem_cons_self _ _)
    have hr := ih (fun m hm => h m (List.mem_cons_of_mem _ hm))
    unfold list_max0 at hr ⊢
    rw [List.foldl_cons, hx, if_neg (lt_irrefl 0)]
    exact hr

/-- A positive `max_val` is one of the scanned features. -/
theorem list_max0_mem_of_pos (l : List Int) (h : 0 < list_max0 l) :
    list_max0 l ∈ l := by
  have hm : list_max0 l ∈ 0 :: l := foldl_max_mem l 0
  rcases List.mem_cons.mp hm with h1 | h1
  · exact absurd h1 (by omega)
  · exact h1

/-- Shape of `extract_features` when the spectrum computation is defined and
the destination buffer is large enough. -/
theorem extract_features_eq (p : SpectralProcessor) (samples : List Int)
    (num_samples max_features : Nat) (mags : List Int)
    (hmf : ¬ (max_features < p.num_bins))
    (hcm : compute_magnitude_spectrum p.num_bins samples num_samples =
      some mags) :
    extract_features p samples num_samples max_features =
      some (p.num_bins,
        if list_max0 mags > 0 then
          mags.map (fun f => i32 (Int.tdiv (f * FIXED_ONE) (list_max0 mags)))
        else mags) := by
  unfold extract_features
  rw [if_neg hmf]
  split
  · rename_i heq
    rw [hcm] at heq
    cases heq
  · rename_i mags' heq
    rw [hcm] at heq
    injection heq with heq
    subst heq
    show (if list_max0 mags > 0 then
        some (p.num_bins,
          mags.map (fun f => i32 (Int.tdiv (f * FIXED_ONE) (list_max0 mags))))
      else some (p.num_bins, mags)) =
      some (p.num_bins,
        if list_max0 mags > 0 then
          mags.map (fun f => i32 (Int.tdiv (f * FIXED_ONE) (list_max0 mags)))
        else mags)
    split_ifs with hpos
    · rfl
    · rfl

/-- Claim C6: for a sample window of `int16_t` values with `num_samples > 0`
and a destination of at least `num_bins` entries, `extract_features` succeeds
and normalizes by the maximum bin value: if any computed magnitude is nonzero
the returned features attain maximum exactly FIXED_ONE, and if all magnitudes
are zero the output is the (all-zero) magnitudes unchanged. -/
theorem c6_extract_features_normalization (p : SpectralProcessor)
    (samples : List Int) (num_samples max_features : Nat)
    (hs : ∀ x ∈ samples, -32768 ≤ x ∧ x ≤ 32767)
    (h0 : 0 < num_samples) (hlen : num_samples ≤ samples.length)
    (hmf : p.num_bins ≤ max_features) :
    ∃ mags feats,
      compute_magnitude_spectrum p.num_bins samples num_samples = some mags ∧
      extract_features p samples num_samples max_features =
        some (p.num_bins, feats) ∧
      ((∀ m ∈ mags, m = 0) → feats = mags) ∧
      ((∃ m ∈ mags, m ≠ 0) →
        FIXED_ONE ∈ feats ∧ ∀ x ∈ feats, x ≤ FIXED_ONE) := by
  have hcm := compute_magnitude_spectrum_eq p.num_bins num_samples samples h0 hlen
  set mags := (List.range p.num_bins).map
    (fun k => bin_mag_value p.num_bins num_samples samples k) with hmagsdef
  have hmb : ∀ m ∈ mags, 0 ≤ m ∧ m ≤ 45875 := by
    intro m hm
    rw [hmagsdef, List.mem_map] at hm
    obtain ⟨k, _, rfl⟩ := hm
    exact bin_mag_value_bounds p.num_bins num_samples samples k h0 hs
  have hfo : FIXED_ONE = (65536 : Int) := rfl
  have hfe := extract_features_eq p samples num_samples max_features mags
    (by omega) hcm
  by_cases hz : 0 < list_max0 mags
  · refine ⟨mags,
      mags.map (fun f => i32 (Int.tdiv (f * FIXED_ONE) (list_max0 mags))),
      hcm, ?_, ?_, ?_⟩
    · rw [hfe, if_pos hz]
    · intro hall
      exact absurd (list_max0_all_zero mags hall) (by omega)
    · intro _
      have hmax_mem := list_max0_mem_of_pos mags hz
      have hmaxbound := hmb _ hmax_mem
      constructor
      · have himg : i32 (Int.tdiv (list_max0 mags * FIXED_ONE)
            (list_max0 mags)) = FIXED_ONE := by
          rw [Int.mul_tdiv_cancel_left _ (by omega)]
          exact i32_eq_self _ (by omega) (by omega)
        have hmem := List.mem_map_of_mem
          (fun f => i32 (Int.tdiv (f * FIXED_ONE) (list_max0 mags))) hmax_mem
        simp only [himg] at hmem
        exact hmem
      · intro x hx
        rw [List.mem_map] at hx
        obtain ⟨f, hf, rfl⟩ := hx
        have hfb := hmb f hf
        have hfle := list_max0_le mags f hf
        have hdiv := tdiv_bounds_nonneg (f * FIXED_ONE) (list_max0 mags)
          FIXED_ONE (mul_nonneg hfb.1 (by omega)) hz
          (mul_le_mul_of_nonneg_right hfle (by omega))
        rw [i32_eq_self _ (by omega) (by omega)]
        exact hdiv.2
  · refine ⟨mags, mags, hcm, ?_, fun _ => rfl, ?_⟩
    · rw [hfe, if_neg hz]
    · rintro ⟨m, hm, hne⟩
      have h1 := hmb m hm
      have h2 := list_max0_le mags m hm
      exact absurd (by omega : m = 0) hne

/-- Witness for C6: a concrete 2-bin processor on three bounded samples; the
theorem's hypotheses hold and its conclusions follow at this input. -/
theorem c6_extract_features_normalization_witness :
    ∃ mags feats,
      compute_magnitude_spectrum 2 [1000, -2000, 3000] 3 = some mags ∧
      extract_features ⟨2, 1000⟩ [1000, -2000, 3000] 3 2 =
        some (2, feats) ∧
      ((∀ m ∈ mags, m = 0) → feats = mags) ∧
      ((∃ m ∈ mags, m ≠ 0) →
        FIXED_ONE ∈ feats ∧ ∀ x ∈ feats, x ≤ FIXED_ONE) :=
  c6_extract_features_normalization ⟨2, 1000⟩ [1000, -2000, 3000] 3 2
    (by decide) (by decide) (by decide) (by decide)

end SpectralGate
